import Mathlib

set_option maxRecDepth 4000

/-!
Shallow embedding of the email classification and reply-extraction pipeline
of this repository (`email_jbhunt_prep.py` and `temp.py`).

Python standard-library behaviour that the code calls into (the `re` regex
engine on the fixed patterns appearing in the source, `html.unescape`,
`urllib.parse`, `base64`, UTF-8 decoding) is modelled by executable Lean
functions specialised to those fixed patterns; configuration-supplied
regular expressions are modelled as abstract matchers, since the rule file
is external input.  Strings are modelled at the character-list level and
numeric weights as exact rationals.
-/

/-- Python regex `\s` and `str.strip` whitespace class, restricted to ASCII
(the texts the repository manipulates). -/
def pyIsSpace (c : Char) : Bool :=
  c = ' ' || c = '\t' || c = '\n' || c = '\r' || c = '\x0b' || c = '\x0c'

/-- Models `re.sub(r"\s+", " ", t)`: every maximal whitespace run becomes one
space.  The flag records whether we are inside a run whose single space has
already been emitted. -/
def collapseWS : Bool → List Char → List Char
  | _, [] => []
  | inRun, c :: cs =>
    if pyIsSpace c then
      if inRun then collapseWS true cs else ' ' :: collapseWS true cs
    else c :: collapseWS false cs

/-- Python `str.strip()` with the default (ASCII-modelled) whitespace set. -/
def pyStrip (l : List Char) : List Char :=
  ((l.dropWhile pyIsSpace).reverse.dropWhile pyIsSpace).reverse

/-- Python `str.lower()` (ASCII model), at the character-list level. -/
def pyLower (s : String) : String := ⟨s.data.map Char.toLower⟩

/-- Case-insensitive comparison of the first `pat.length` characters of `l`
against the lowercase literal `pat`: a case-insensitive literal inside one of
the source's Python regexes. -/
def lcHeadIs (pat l : List Char) : Bool :=
  (l.take pat.length).map Char.toLower == pat

/-- After a `<`, match `(script|style)[^>]*>` of the source's script/style
regex; returns the canonical tag name and the text after the `>`. -/
def scriptOpen (cs : List Char) : Option (List Char × List Char) :=
  let tag : Option (List Char) :=
    if lcHeadIs "script".data cs then some "script".data
    else if lcHeadIs "style".data cs then some "style".data
    else none
  match tag with
  | none => none
  | some t =>
    let after := cs.drop t.length
    let attrs := after.takeWhile (fun c => c ≠ '>')
    match after.drop attrs.length with
    | '>' :: rest => some (t, rest)
    | _ => none

/-- Scan for the first case-insensitive closing tag, the non-greedy
`.*?</\1>` of the script/style regex; returns what follows it. -/
def scriptClose (tag : List Char) : List Char → Option (List Char)
  | [] => none
  | c :: cs =>
    if lcHeadIs ('<' :: '/' :: (tag ++ ['>'])) (c :: cs) then
      some ((c :: cs).drop (tag.length + 3))
    else scriptClose tag cs

/-- `re.sub(r"(?is)<(script|style)[^>]*>.*?</\1>", " ", text)` as a fuel-indexed
left-to-right non-overlapping scan; the fuel is the text length, so it never
runs out on the intended calls, and exhausted fuel returns the text as is. -/
def scriptSubGo : Nat → List Char → List Char
  | 0, l => l
  | _ + 1, [] => []
  | f + 1, c :: cs =>
    if c = '<' then
      match scriptOpen cs with
      | some (tag, afterOpen) =>
        match scriptClose tag afterOpen with
        | some rest => ' ' :: scriptSubGo f rest
        | none => '<' :: scriptSubGo f cs
      | none => '<' :: scriptSubGo f cs
    else c :: scriptSubGo f cs

/-- One `<[^>]+>` tag match starting right after a `<`; returns what follows
the closing `>`. -/
def tagAfter (cs : List Char) : Option (List Char) :=
  let inner := cs.takeWhile (fun c => c ≠ '>')
  if inner.isEmpty then none
  else match cs.drop inner.length with
    | '>' :: rest => some rest
    | _ => none

/-- `re.sub(r"(?is)<[^>]+>", " ", t)` as a fuel-indexed scan. -/
def tagSubGo : Nat → List Char → List Char
  | 0, l => l
  | _ + 1, [] => []
  | f + 1, c :: cs =>
    if c = '<' then
      match tagAfter cs with
      | some rest => ' ' :: tagSubGo f rest
      | none => '<' :: tagSubGo f cs
    else c :: tagSubGo f cs

/-- Entity table of this model of Python `html.unescape`: the five standard
XML/HTML entities.  The model is faithful to `html.unescape` on texts whose
ampersands only introduce these references, and on any text containing no
ampersand at all. -/
def entityTable : List (List Char × Char) :=
  [("lt;".data, '<'), ("gt;".data, '>'), ("amp;".data, '&'),
   ("quot;".data, '"'), ("#39;".data, Char.ofNat 39)]

/-- Model of Python `html.unescape` (restricted as described at
`entityTable`), fuel-indexed. -/
def unescapeGo : Nat → List Char → List Char
  | 0, l => l
  | _ + 1, [] => []
  | f + 1, c :: cs =>
    if c = '&' then
      match entityTable.find? (fun e => e.1.isPrefixOf cs) with
      | some e => e.2 :: unescapeGo f (cs.drop e.1.length)
      | none => '&' :: unescapeGo f cs
    else c :: unescapeGo f cs

/-- The character-list body of `strip_html`: remove script/style elements,
strip remaining tags, unescape entities, collapse whitespace runs to single
spaces and strip the ends. -/
def stripHtmlData (l : List Char) : List Char :=
  let t1 := scriptSubGo l.length l
  let t2 := tagSubGo t1.length t1
  let t3 := unescapeGo t2.length t2
  pyStrip (collapseWS false t3)

/-- `strip_html` from `email_jbhunt_prep.py`.  (The source returns `""` for
non-string input; the model's input is always a string.) -/
def strip_html (text : String) : String :=
  ⟨stripHtmlData text.data⟩

/-- The apostrophe character (used as a quote delimiter by the source's
`href` regex and in the source's reason strings). -/
def apostChar : Char := Char.ofNat 39

/-- A quote character of the `href=['"]([^'"]+)['"]` regex. -/
def isQuote (c : Char) : Bool := c = apostChar || c = '"'

/-- One match of `href=['"]([^'"]+)['"]` (case-insensitive) at the head of
the text; returns the captured group and the text after the closing quote. -/
def hrefMatchAt (l : List Char) : Option (List Char × List Char) :=
  if lcHeadIs "href=".data l then
    match l.drop 5 with
    | q :: rest =>
      if isQuote q then
        let content := rest.takeWhile (fun c => !isQuote c)
        if content.isEmpty then none
        else match rest.drop content.length with
          | q2 :: rest2 => if isQuote q2 then some (content, rest2) else none
          | [] => none
      else none
    | [] => none
  else none

/-- `re.findall(r'href=[\'"]([^\'"]+)[\'"]', text, flags=re.I)`: fuel-indexed
non-overlapping left-to-right scan. -/
def hrefFindallGo : Nat → List Char → List String
  | 0, _ => []
  | _ + 1, [] => []
  | f + 1, c :: cs =>
    match hrefMatchAt (c :: cs) with
    | some (content, rest) => String.mk content :: hrefFindallGo f rest
    | none => hrefFindallGo f cs

/-- The character class `[^\s<>"\)\]]` of the bare-URL regex. -/
def bareUrlChar (c : Char) : Bool :=
  !(pyIsSpace c || c = '<' || c = '>' || c = '"' || c = ')' || c = ']')

/-- One match of `(https?://[^\s<>"\)\]]+)` (case-insensitive) at the head of
the text; returns the matched text (original case) and what follows. -/
def bareUrlMatchAt (l : List Char) : Option (List Char × List Char) :=
  if lcHeadIs "http".data l then
    let sLen := match l.drop 4 with
      | c :: _ => if c.toLower = 's' then 1 else 0
      | [] => 0
    if "://".data.isPrefixOf (l.drop (4 + sLen)) then
      let run := (l.drop (4 + sLen + 3)).takeWhile bareUrlChar
      if run.isEmpty then none
      else some (l.take (4 + sLen + 3 + run.length), l.drop (4 + sLen + 3 + run.length))
    else none
  else none

/-- `re.findall(r'(https?://[^\s<>"\)\]]+)', text, flags=re.I)`. -/
def bareUrlFindallGo : Nat → List Char → List String
  | 0, _ => []
  | _ + 1, [] => []
  | f + 1, c :: cs =>
    match bareUrlMatchAt (c :: cs) with
    | some (url, rest) => String.mk url :: bareUrlFindallGo f rest
    | none => bareUrlFindallGo f cs

/-- Python `u.rstrip('.,);]')`. -/
def rstripPunct (s : String) : String :=
  ⟨(s.data.reverse.dropWhile
      (fun c => c = '.' || c = ',' || c = ')' || c = ';' || c = ']')).reverse⟩

/-- Python `list(dict.fromkeys(...))`: deduplicate preserving first-seen
order. -/
def dedupKeepFirst (seen : List String) : List String → List String
  | [] => []
  | x :: xs =>
    if x ∈ seen then dedupKeepFirst seen xs else x :: dedupKeepFirst (x :: seen) xs

/-- `find_urls` from `email_jbhunt_prep.py`: concatenate href-attribute and
bare-URL matches (href matches first), right-strip trailing punctuation and
deduplicate preserving first-seen order.  (The source returns `[]` for a
non-string input; the model's input is always a string.) -/
def find_urls (text : String) : List String :=
  let urls := hrefFindallGo text.data.length text.data
      ++ bareUrlFindallGo text.data.length text.data
  dedupKeepFirst [] (urls.map rstripPunct)

/-- Scheme characters of `urllib.parse` (letters, digits, `+`, `-`, `.`). -/
def schemeChar (c : Char) : Bool := c.isAlphanum || c = '+' || c = '-' || c = '.'

/-- Model of `urllib.parse.urlparse(u).hostname` (CPython): remove the unsafe
bytes tab/CR/LF, strip leading C0-control-or-space characters, split off a
valid scheme, parse the netloc after `//` up to the first `/?#`, reject
unbalanced brackets (the `ValueError` that the source's `except` swallows),
drop userinfo up to the last `@`, take the bracketed host or the part before
the first `:`, lowercase it; `none` models both `None` and the error. -/
def urlparseHostname (u : String) : Option String :=
  let l0 := u.data.filter (fun c => !(c = '\t' || c = '\r' || c = '\n'))
  let l := l0.dropWhile (fun c => c.toNat ≤ 32)
  let schemeLen : Nat :=
    match l.findIdx? (fun c => c = ':') with
    | some i =>
      if 0 < i && (match l.head? with | some c0 => c0.isAlpha | none => false)
          && ((l.take i).drop 1).all schemeChar
      then i + 1 else 0
    | none => 0
  let rest := l.drop schemeLen
  if "//".data.isPrefixOf rest then
    let netloc := (rest.drop 2).takeWhile (fun c => !(c = '/' || c = '?' || c = '#'))
    if (netloc.contains '[' && !netloc.contains ']')
        || (netloc.contains ']' && !netloc.contains '[') then none
    else
      let hostinfo := (netloc.reverse.takeWhile (fun c => c ≠ '@')).reverse
      let host :=
        if hostinfo.contains '[' then
          ((hostinfo.dropWhile (fun c => c ≠ '[')).drop 1).takeWhile (fun c => c ≠ ']')
        else hostinfo.takeWhile (fun c => c ≠ ':')
      if host.isEmpty then none else some ⟨host.map Char.toLower⟩
  else none

/-- `hosts` from `email_jbhunt_prep.py`: hostname of each URL, lowercased,
silently skipping URLs without a parsable hostname. -/
def hosts (urls : List String) : List String :=
  urls.filterMap urlparseHostname

/-- Python `sub in s` on strings: contiguous-substring test, expressed over
start positions. -/
def pySubstr (sub l : List Char) : Bool :=
  (List.range (l.length + 1)).any fun i => sub.isPrefixOf (l.drop i)

/-- Python `s.endswith(suffix)`. -/
def pyEndsWith (suffix l : List Char) : Bool :=
  suffix.reverse.isPrefixOf l.reverse

/-- Observable behaviour of one compiled configuration regular expression:
the rule file is external input, so its patterns are modelled by their
`re.search` truth value and their `re.findall` result. -/
structure RePattern where
  search : String → Bool
  findall : String → List String

/-- The rule configuration `JBH_RULES` built from `jbhunt_rules.yaml`
(external input, so every field is a parameter).  `subject_patterns` models
the insertion-ordered Python dict as an ordered association list with
distinct keys. -/
structure JbhRules where
  from_domains : List String
  sender_names_contains : List String
  body_phrases : List String
  url_host_contains : List String
  w_from_domain : ℚ
  w_host : ℚ
  w_phrase : ℚ
  w_sender_name : ℚ
  threshold : ℚ
  subject_patterns : List (String × RePattern)
  reply_true_if : List String
  reply_false_if : List String
  footer_indicators : List String

/-- An email record as consumed by `classify`/`score_jbhunt`: the relevant
dict entries, each possibly absent. -/
structure EmailRec where
  from_h : Option String
  subject_h : Option String
  original_body_h : Option String

/-- Local-part character class `[A-Za-z0-9._%+\-]` of the sender regex. -/
def isLocalChar (c : Char) : Bool :=
  c.isAlphanum || c = '.' || c = '_' || c = '%' || c = '+' || c = '-'

/-- Domain character class `[A-Za-z0-9.\-]` of the sender regex. -/
def isDomChar (c : Char) : Bool := c.isAlphanum || c = '.' || c = '-'

/-- Backtracking of the greedy `[A-Za-z0-9.\-]+\.[A-Za-z]{2,}` domain part:
try the longest first-repetition length `k` first, requiring a literal `.`
and at least two letters after it; returns the full matched domain text. -/
def tryDomK (cs : List Char) : Nat → Option (List Char)
  | 0 => none
  | k + 1 =>
    if (cs.take (k + 1)).all isDomChar then
      match cs.drop (k + 1) with
      | c :: rest =>
        if c = '.' then
          let al := rest.takeWhile Char.isAlpha
          if 2 ≤ al.length then some (cs.take (k + 1) ++ '.' :: al)
          else tryDomK cs k
        else tryDomK cs k
      | [] => tryDomK cs k
    else tryDomK cs k

/-- Match of `([A-Za-z0-9._%+\-]+)@([A-Za-z0-9.\-]+\.[A-Za-z]{2,})` anchored
at the head of `cs`: the maximal local-part run must be followed by `@`
(shorter runs cannot be, since `@` is not a local character), then the
domain part; returns both capture groups. -/
def emailMatchAt (cs : List Char) : Option (List Char × List Char) :=
  let loc := cs.takeWhile isLocalChar
  if loc.isEmpty then none
  else
    match cs.drop loc.length with
    | '@' :: rest => (tryDomK rest rest.length).map fun dom => (loc, dom)
    | _ => none

/-- `re.search` of the sender regex: leftmost match wins. -/
def emailSearch : List Char → Option (List Char × List Char)
  | [] => none
  | c :: rest =>
    match emailMatchAt (c :: rest) with
    | some r => some r
    | none => emailSearch rest

/-- `m.group(2).lower() if m else None` of `score_jbhunt`: the sender's
domain, lowercased, when the permissive local-part@domain pattern matches
the `From` header. -/
def extractFromDomain (from_field : String) : Option String :=
  (emailSearch from_field.data).map fun r => ⟨r.2.map Char.toLower⟩

/-- The sender-domain evidence test of `score_jbhunt`:
`from_domain and any(from_domain.endswith(d) for d in from_domains)`. -/
def fromDomainHit (R : JbhRules) (from_field : String) : Bool :=
  match extractFromDomain from_field with
  | some d => R.from_domains.any fun suf => pyEndsWith suf.data d.data
  | none => false

/-- The sender-name evidence test of `score_jbhunt`:
`any(s in from_field for s in sender_names_contains)` (case-sensitive). -/
def senderNameHit (R : JbhRules) (from_field : String) : Bool :=
  R.sender_names_contains.any fun s => pySubstr s.data from_field.data

/-- The URL-host evidence test of `score_jbhunt`: some extracted hostname of
the raw body contains some configured host token. -/
def hostHit (R : JbhRules) (body : String) : Bool :=
  (hosts (find_urls body)).any fun h =>
    R.url_host_contains.any fun tok => pySubstr tok.data h.data

/-- The body-phrase evidence test of `score_jbhunt`: some configured phrase,
lowercased, is a substring of the normalized, lowercased body. -/
def phraseHit (R : JbhRules) (body : String) : Bool :=
  R.body_phrases.any fun p =>
    pySubstr (pyLower p).data (pyLower (strip_html body)).data

/-- The evidence total accumulated by `score_jbhunt` (its local `score`),
as the source's sequence of guarded `score += weight` steps. -/
def jbh_score (R : JbhRules) (e : EmailRec) : ℚ :=
  let from_field := e.from_h.getD ""
  let body := e.original_body_h.getD ""
  let s1 : ℚ := if fromDomainHit R from_field then R.w_from_domain else 0
  let s2 : ℚ := if senderNameHit R from_field then s1 + R.w_sender_name else s1
  let s3 : ℚ := if hostHit R body then s2 + R.w_host else s2
  if phraseHit R body then s3 + R.w_phrase else s3

/-- `score_jbhunt` from `email_jbhunt_prep.py`: `score >= threshold`. -/
def score_jbhunt (R : JbhRules) (e : EmailRec) : Bool :=
  R.threshold ≤ jbh_score R e

/-- The loop of `subject_category` over the subject-pattern items. -/
def subjCatGo (s : String) : List (String × RePattern) → String
  | [] => "OTHER"
  | (k, p) :: rest =>
    if k = "ID_PATTERN" then subjCatGo s rest
    else if p.search s then k else subjCatGo s rest

/-- `subject_category` from `email_jbhunt_prep.py`: lowercase the subject
(absent treated as empty), walk the configured patterns in declared order
skipping the reserved `ID_PATTERN` entry, return the first matching
category, else `"OTHER"`. -/
def subject_category (R : JbhRules) (subject : Option String) : String :=
  subjCatGo (pyLower (subject.getD "")) R.subject_patterns

/-- `extract_load_ids` from `email_jbhunt_prep.py`: `findall` of the
reserved identifier pattern on the raw subject.  `none` models the
`KeyError` raised when the configuration has no `ID_PATTERN` entry. -/
def extract_load_ids (R : JbhRules) (subject : Option String) : Option (List String) :=
  match R.subject_patterns.lookup "ID_PATTERN" with
  | some p => some (p.findall (subject.getD ""))
  | none => none

/-- Python `t.rfind(sub)` for an occurring pattern: the greatest start index
at which `sub` occurs in `l` (as `Option`). -/
def pyRfind (sub l : List Char) : Option Nat :=
  ((List.range (l.length + 1)).filter fun i => sub.isPrefixOf (l.drop i)).getLast?

/-- The index list of `stamp_position`:
`[t.rfind(ind.lower()) for ind in footer_indicators if ind.lower() in t]`. -/
def stampIdxs (R : JbhRules) (text_body : String) : List Nat :=
  let t := (pyLower text_body).data
  R.footer_indicators.filterMap fun ind =>
    if pySubstr (pyLower ind).data t then pyRfind (pyLower ind).data t else none

/-- `stamp_position` from `email_jbhunt_prep.py`.  The source buckets the
IEEE-double fraction `pos / max(len(t), 1)` against 0.2 and 0.7; this is
modelled exactly, with the division cleared: `frac < 1/5` iff
`5 * pos < max(len, 1)` and `frac < 7/10` iff `10 * pos < 7 * max(len, 1)`
(the rational characterization is proved in the C5 theorem below). -/
def stamp_position (R : JbhRules) (text_body : String) : Option String :=
  match (stampIdxs R text_body).max? with
  | none => none
  | some pos =>
    let n := max (pyLower text_body).data.length 1
    if 5 * pos < n then some "header"
    else if 10 * pos < 7 * n then some "body"
    else some "footer"

/-- Wrap a category name in apostrophes, as the source's f-string reasons do. -/
def quoteCat (cat : String) : String :=
  String.singleton apostChar ++ cat ++ String.singleton apostChar

/-- The result dict of `classify`. -/
structure ClassifyResult where
  is_jbhunt : Bool
  subject_category : String
  load_ids : List String
  company_stamp_position : Option String
  needs_response_pred : Option Bool
  reason : String
deriving DecidableEq

/-- `classify` from `email_jbhunt_prep.py`.  `none` models the `KeyError`
raised by `extract_load_ids` when the configuration lacks `ID_PATTERN`. -/
def classify (R : JbhRules) (e : EmailRec) : Option ClassifyResult :=
  let is_jbh := score_jbhunt R e
  let subj := e.subject_h.getD ""
  let cat := subject_category R (some subj)
  match extract_load_ids R (some subj) with
  | none => none
  | some ids =>
    let text_body := strip_html (e.original_body_h.getD "")
    let stamp_pos := stamp_position R text_body
    if cat ∈ R.reply_true_if then
      some ⟨is_jbh, cat, ids, stamp_pos, some true,
        "Subject category " ++ quoteCat cat ++ " indicates action is needed."⟩
    else if cat ∈ R.reply_false_if then
      some ⟨is_jbh, cat, ids, stamp_pos, some false,
        "Subject category " ++ quoteCat cat ++ " is informational."⟩
    else
      some ⟨is_jbh, cat, ids, stamp_pos, none, "No strong subject signal."⟩

/-- A base64 alphabet character (standard alphabet). -/
def isB64Char (c : Char) : Bool :=
  ('A' ≤ c && c ≤ 'Z') || ('a' ≤ c && c ≤ 'z') || ('0' ≤ c && c ≤ '9')
    || c = '+' || c = '/'

/-- Numeric value of a base64 alphabet character. -/
def b64Val (c : Char) : Nat :=
  if 'A' ≤ c && c ≤ 'Z' then c.toNat - 65
  else if 'a' ≤ c && c ≤ 'z' then c.toNat - 71
  else if '0' ≤ c && c ≤ '9' then c.toNat + 4
  else if c = '+' then 62
  else 63

/-- Decode a run of base64 data characters into bytes: groups of four give
three bytes; a final group of three gives two bytes and of two gives one. -/
def b64Quads : List Char → List Nat
  | a :: b :: c :: d :: rest =>
    let n := ((b64Val a * 64 + b64Val b) * 64 + b64Val c) * 64 + b64Val d
    n / 65536 :: n / 256 % 256 :: n % 256 :: b64Quads rest
  | [a, b, c] =>
    [b64Val a * 4 + b64Val b / 16, b64Val b % 16 * 16 + b64Val c / 4]
  | [a, b] => [b64Val a * 4 + b64Val b / 16]
  | _ => []

/-- Model of Python `base64.b64decode(s)` (non-strict `binascii`): characters
outside the alphabet are ignored, data stops at the first `=`; the decode
fails when the number of data characters is `1 (mod 4)`, or is not a
multiple of four with no padding present at all. -/
def b64decodeStd (s : List Char) : Option (List Nat) :=
  let dataChars := (s.takeWhile fun c => c ≠ '=').filter isB64Char
  if dataChars.length % 4 = 1 then none
  else if dataChars.length % 4 ≠ 0 && !s.contains '=' then none
  else some (b64Quads dataChars)

/-- `base64.urlsafe_b64decode`: translate `-`/`_` to `+`/`/` and decode. -/
def b64decodeUrlsafe (s : List Char) : Option (List Nat) :=
  b64decodeStd (s.map fun c => if c = '-' then '+' else if c = '_' then '/' else c)

/-- Is `b` a UTF-8 continuation byte? -/
def utf8Cont (b : Nat) : Bool := 128 ≤ b && b ≤ 191

/-- Model of `bytes.decode("utf-8", errors="replace")`: well-formed sequences
decode to their code point, each maximal invalid subpart becomes one U+FFFD
replacement character.  (The theorems below only evaluate it on ASCII.) -/
def utf8ReplaceGo : Nat → List Nat → List Char
  | 0, _ => []
  | _ + 1, [] => []
  | f + 1, b :: bs =>
    if b < 128 then Char.ofNat b :: utf8ReplaceGo f bs
    else if 194 ≤ b && b ≤ 223 then
      match bs with
      | b2 :: rest =>
        if utf8Cont b2 then
          Char.ofNat ((b - 192) * 64 + (b2 - 128)) :: utf8ReplaceGo f rest
        else Char.ofNat 65533 :: utf8ReplaceGo f bs
      | [] => [Char.ofNat 65533]
    else if 224 ≤ b && b ≤ 239 then
      match bs with
      | b2 :: rest =>
        if (if b = 224 then 160 ≤ b2 && b2 ≤ 191
            else if b = 237 then 128 ≤ b2 && b2 ≤ 159
            else utf8Cont b2) then
          match rest with
          | b3 :: rest2 =>
            if utf8Cont b3 then
              Char.ofNat (((b - 224) * 64 + (b2 - 128)) * 64 + (b3 - 128))
                :: utf8ReplaceGo f rest2
            else Char.ofNat 65533 :: utf8ReplaceGo f rest
          | [] => [Char.ofNat 65533]
        else Char.ofNat 65533 :: utf8ReplaceGo f bs
      | [] => [Char.ofNat 65533]
    else if 240 ≤ b && b ≤ 244 then
      match bs with
      | b2 :: rest =>
        if (if b = 240 then 144 ≤ b2 && b2 ≤ 191
            else if b = 244 then 128 ≤ b2 && b2 ≤ 143
            else utf8Cont b2) then
          match rest with
          | b3 :: rest2 =>
            if utf8Cont b3 then
              match rest2 with
              | b4 :: rest3 =>
                if utf8Cont b4 then
                  Char.ofNat ((((b - 240) * 64 + (b2 - 128)) * 64 + (b3 - 128)) * 64
                      + (b4 - 128)) :: utf8ReplaceGo f rest3
                else Char.ofNat 65533 :: utf8ReplaceGo f rest2
              | [] => [Char.ofNat 65533]
            else Char.ofNat 65533 :: utf8ReplaceGo f rest
          | [] => [Char.ofNat 65533]
        else Char.ofNat 65533 :: utf8ReplaceGo f bs
      | [] => [Char.ofNat 65533]
    else Char.ofNat 65533 :: utf8ReplaceGo f bs

/-- Python `data + "=" * (-len(data) % 4)`: pad to a multiple of four. -/
def padB64 (s : List Char) : List Char :=
  s ++ List.replicate ((4 - s.length % 4) % 4) '='

/-- `_decode_base64url` from `temp.py`: empty input gives `""`; try
base64url with normalized padding, then plain base64 on the unpadded input,
and fall back to the raw input string when both fail.  Decoded bytes go
through UTF-8 decoding with replacement, which never fails. -/
def decode_base64url (data : String) : String :=
  if data = "" then ""
  else
    match b64decodeUrlsafe (padB64 data.data) with
    | some bs => ⟨utf8ReplaceGo bs.length bs⟩
    | none =>
      match b64decodeStd data.data with
      | some bs => ⟨utf8ReplaceGo bs.length bs⟩
      | none => data

mutual
/-- One node of the Gmail MIME payload tree as `temp.py` reads it:
`mimeType` (absent modelled as `""`, matching the source's `.get` default),
the optional `body.data` string, and the optional `parts` child list (the
source tests key presence, so absent and empty list differ).  `MParts` is
the child list, mutually inductive so that all recursion is structural. -/
inductive MPart where
  | mk (mimeType : String) (bodyData : Option String) (kids : Option MParts) : MPart
inductive MParts where
  | nil : MParts
  | cons (p : MPart) (rest : MParts) : MParts
end

/-- The `mimeType` field (default `""`). -/
def MPart.mime : MPart → String
  | .mk m _ _ => m

/-- The `body.data` field, if present. -/
def MPart.bdata : MPart → Option String
  | .mk _ d _ => d

/-- The `parts` field, if the key is present. -/
def MPart.kids : MPart → Option MParts
  | .mk _ _ k => k

/-- The merge of a nested `find_email_parts` result into the accumulated
`body` dict: each field is taken from the nested result only when it is
nonempty there and still empty in the accumulator. -/
def fepMerge (body nested : String × String) : String × String :=
  (if nested.1 ≠ "" && body.1 = "" then nested.1 else body.1,
   if nested.2 ≠ "" && body.2 = "" then nested.2 else body.2)

/-- The `text/plain` / `text/html` branch pair of the `find_email_parts`
loop body (an `elif` chain in the source). -/
def fepText (mime : String) (bdata : Option String) (b : String × String) :
    String × String :=
  if mime = "text/plain" && b.1 = "" then
    match bdata with
    | some d => if d ≠ "" then (decode_base64url d, b.2) else b
    | none => b
  else if mime = "text/html" && b.2 = "" then
    match bdata with
    | some d => if d ≠ "" then (b.1, decode_base64url d) else b
    | none => b
  else b

/-- The `message/rfc822` branch of the `find_email_parts` loop body: the
decoded payload fills the plain-text field only when it is still empty. -/
def fepRfc (mime : String) (bdata : Option String) (b : String × String) :
    String × String :=
  if mime = "message/rfc822" then
    match bdata with
    | some d =>
      if d ≠ "" then (if b.1 = "" then (decode_base64url d, b.2) else b) else b
    | none => b
  else b

mutual
/-- The body of the `for part in parts` loop of `find_email_parts`, acting
on the accumulated `body` dict `(plain, html)`. -/
def fepOne (body : String × String) (p : MPart) : String × String :=
  match p with
  | .mk mime bdata kids =>
    let body1 :=
      match kids with
      | some ps => fepMerge body (fepList ("", "") ps)
      | none => body
    fepRfc mime bdata (fepText mime bdata body1)
/-- The loop of `find_email_parts` over a part list. -/
def fepList (body : String × String) : MParts → String × String
  | .nil => body
  | .cons p rest => fepList (fepOne body p) rest
end

/-- `find_email_parts` from `temp.py`: walk the part list (recursing into
nested part lists with a fresh accumulator, merging without overwriting),
capture the first plain and html contents found, and use an embedded
`message/rfc822` payload for the plain text only when none is captured yet. -/
def find_email_parts (parts : MParts) : String × String :=
  fepList ("", "") parts

/-- Does the plain-text quoted-history boundary regex
`\n_+\n|\nOn .* wrote:\n` match at the head of `l`?  The second alternative
requires the line after the newline to be `On ` + anything + ` wrote:`
immediately followed by a newline. -/
def boundaryAt (l : List Char) : Bool :=
  match l with
  | '\n' :: rest =>
    (let us := rest.takeWhile fun c => c = '_'
     (!us.isEmpty) &&
       (match rest.drop us.length with
        | '\n' :: _ => true
        | _ => false))
    ||
    (let line := rest.takeWhile fun c => c ≠ '\n'
     "On ".data.isPrefixOf line && pyEndsWith " wrote:".data line
       && 10 ≤ line.length &&
       (match rest.drop line.length with
        | '\n' :: _ => true
        | _ => false))
  | _ => false

/-- `re.split(boundary, plain, 1)[0]`: the text before the first boundary
match (the whole text when there is none). -/
def takeBeforeBoundary : List Char → List Char
  | [] => []
  | c :: cs => if boundaryAt (c :: cs) then [] else c :: takeBeforeBoundary cs

/-- Python `s.strip()` on strings. -/
def pyStripStr (s : String) : String := ⟨pyStrip s.data⟩

/-- The `body_parts` dict `(plain, html)` computed at the top of
`extract_latest_reply`: from the nested parts when the `parts` key is
present, else from the payload's own `body.data` keyed on its mime type. -/
def latestBodyParts (payload : MPart) : String × String :=
  match payload.kids with
  | some ps => find_email_parts ps
  | none =>
    match payload.bdata with
    | some d =>
      if payload.mime = "text/html" then ("", decode_base64url d)
      else (decode_base64url d, "")
    | none => ("", "")

/-- The cleaning stage of `extract_latest_reply` before the fallbacks: the
external BeautifulSoup pipeline on html content (modelled by the parameter
`cleanHtml`, since it is library behaviour on library objects), or the
plain-text boundary split followed by `strip`. -/
def latestCleaned (cleanHtml : String → String) (bp : String × String) : String :=
  if bp.2 ≠ "" then cleanHtml bp.2
  else if bp.1 ≠ "" then pyStripStr ⟨takeBeforeBoundary bp.1.data⟩
  else ""

/-- `extract_latest_reply` from `temp.py`, returning
`(original_body, clean_reply)`.  `cleanHtml` stands for the BeautifulSoup
quoted-history removal applied to html content. -/
def extract_latest_reply (cleanHtml : String → String) (payload : MPart) :
    String × String :=
  let bp := latestBodyParts payload
  let original_body := if bp.2 ≠ "" then bp.2 else bp.1
  let cleaned := latestCleaned cleanHtml bp
  let cleaned2 := if cleaned = "" && bp.1 ≠ "" then pyStripStr bp.1 else cleaned
  (original_body, if cleaned2 = "" then "(No readable content found)" else cleaned2)

/-! ## Helper lemmas -/

theorem scriptSubGo_no_lt (f : Nat) (l : List Char) (h : '<' ∉ l) :
    scriptSubGo f l = l := by
  induction f generalizing l with
  | zero => rfl
  | succ f ih =>
    cases l with
    | nil => rfl
    | cons c cs =>
      have hc : c ≠ '<' := fun e => h (e ▸ List.mem_cons_self c cs)
      have hcs : '<' ∉ cs := fun hm => h (List.mem_cons_of_mem c hm)
      simp [scriptSubGo, hc, ih cs hcs]

theorem tagSubGo_no_lt (f : Nat) (l : List Char) (h : '<' ∉ l) :
    tagSubGo f l = l := by
  induction f generalizing l with
  | zero => rfl
  | succ f ih =>
    cases l with
    | nil => rfl
    | cons c cs =>
      have hc : c ≠ '<' := fun e => h (e ▸ List.mem_cons_self c cs)
      have hcs : '<' ∉ cs := fun hm => h (List.mem_cons_of_mem c hm)
      simp [tagSubGo, hc, ih cs hcs]

theorem unescapeGo_no_amp (f : Nat) (l : List Char) (h : '&' ∉ l) :
    unescapeGo f l = l := by
  induction f generalizing l with
  | zero => rfl
  | succ f ih =>
    cases l with
    | nil => rfl
    | cons c cs =>
      have hc : c ≠ '&' := fun e => h (e ▸ List.mem_cons_self c cs)
      have hcs : '&' ∉ cs := fun hm => h (List.mem_cons_of_mem c hm)
      simp [unescapeGo, hc, ih cs hcs]

/-- Invariant of whitespace-collapsed text: every whitespace character is a
plain space and no two adjacent characters are both whitespace. -/
def Tidy (l : List Char) : Prop :=
  (∀ c ∈ l, pyIsSpace c = true → c = ' ') ∧
    List.Chain' (fun a b => pyIsSpace a = true → pyIsSpace b = false) l

theorem collapseWS_tidy (l : List Char) :
    Tidy (collapseWS false l) ∧ Tidy (collapseWS true l) ∧
      ∀ c, (collapseWS true l).head? = some c → pyIsSpace c = false := by
  induction l with
  | nil =>
    refine ⟨⟨by simp [collapseWS], by simp [collapseWS]⟩,
      ⟨by simp [collapseWS], by simp [collapseWS]⟩, by simp [collapseWS]⟩
  | cons c cs ih =>
    obtain ⟨ihF, ihT, ihH⟩ := ih
    by_cases hsp : pyIsSpace c = true
    · have hF : collapseWS false (c :: cs) = ' ' :: collapseWS true cs := by
        simp [collapseWS, hsp]
      have hT : collapseWS true (c :: cs) = collapseWS true cs := by
        simp [collapseWS, hsp]
      refine ⟨?_, ?_, ?_⟩
      · rw [hF]
        constructor
        · intro x hx hxs
          rcases List.mem_cons.mp hx with h | h
          · exact h
          · exact ihT.1 x h hxs
        · exact List.Chain'.cons' ihT.2 (fun y hy _ => ihH y hy)
      · rw [hT]; exact ihT
      · rw [hT]; exact ihH
    · have hsp' : pyIsSpace c = false := by
        cases h : pyIsSpace c
        · rfl
        · exact absurd h hsp
      have hF : collapseWS false (c :: cs) = c :: collapseWS false cs := by
        simp [collapseWS, hsp']
      have hT : collapseWS true (c :: cs) = c :: collapseWS false cs := by
        simp [collapseWS, hsp']
      have htidy : Tidy (c :: collapseWS false cs) := by
        constructor
        · intro x hx hxs
          rcases List.mem_cons.mp hx with h | h
          · exact absurd (h ▸ hxs) (by simp [hsp'])
          · exact ihF.1 x h hxs
        · exact List.Chain'.cons' ihF.2
            (fun y _ hc => absurd hc (by simp [hsp']))
      refine ⟨hF ▸ htidy, hT ▸ htidy, ?_⟩
      · intro x hx
        rw [hT] at hx
        simp only [List.head?_cons, Option.some.injEq] at hx
        exact hx ▸ hsp'

theorem tidy_of_infix_le {l₁ l : List Char} (h : Tidy l) (hinf : l₁ <:+: l) :
    Tidy l₁ :=
  ⟨fun c hc hs => h.1 c (List.IsInfix.subset hinf hc) hs,
    List.Chain'.infix h.2 hinf⟩

theorem pyStrip_prefix_dropWhile (l : List Char) :
    pyStrip l <+: l.dropWhile pyIsSpace := by
  have hs : ((l.dropWhile pyIsSpace).reverse.dropWhile pyIsSpace) <:+
      (l.dropWhile pyIsSpace).reverse := List.dropWhile_suffix _
  apply List.reverse_suffix.mp
  simp only [pyStrip, List.reverse_reverse]
  exact hs

theorem pyStrip_infix_le (l : List Char) : pyStrip l <:+: l :=
  List.IsInfix.trans (List.IsPrefix.isInfix (pyStrip_prefix_dropWhile l))
    (List.IsSuffix.isInfix (List.dropWhile_suffix _))

theorem dropWhile_idem (p : Char → Bool) (l : List Char) :
    (l.dropWhile p).dropWhile p = l.dropWhile p := by
  induction l with
  | nil => rfl
  | cons c cs ih =>
    by_cases hc : p c
    · rw [List.dropWhile_cons, if_pos hc, ih]
    · rw [List.dropWhile_cons, if_neg hc, List.dropWhile_cons, if_neg hc]

theorem dropWhile_eq_self_of_prefix {p : Char → Bool} {l₁ l : List Char}
    (hpre : l₁ <+: l) (h : l.dropWhile p = l) : l₁.dropWhile p = l₁ := by
  cases l₁ with
  | nil => rfl
  | cons a t =>
    obtain ⟨r, rfl⟩ := hpre
    have ha : ¬ p a = true := by
      intro hpa
      rw [List.cons_append, List.dropWhile_cons, if_pos hpa] at h
      have hlen : (List.dropWhile p (t ++ r)).length = (t ++ r).length + 1 := by
        rw [h, List.length_cons]
      have hle := (List.dropWhile_sublist (l := t ++ r) p).length_le
      omega
    rw [List.dropWhile_cons, if_neg ha]

theorem pyStrip_idem (l : List Char) : pyStrip (pyStrip l) = pyStrip l := by
  have hfront : (pyStrip l).dropWhile pyIsSpace = pyStrip l :=
    dropWhile_eq_self_of_prefix (pyStrip_prefix_dropWhile l) (dropWhile_idem _ _)
  show (((pyStrip l).dropWhile pyIsSpace).reverse.dropWhile pyIsSpace).reverse
      = pyStrip l
  rw [hfront]
  simp only [pyStrip, List.reverse_reverse]
  rw [dropWhile_idem]

theorem collapseWS_eq_self {l : List Char} (h : Tidy l) :
    collapseWS false l = l := by
  induction l with
  | nil => rfl
  | cons c cs ih =>
    have htail : Tidy cs :=
      ⟨fun x hx => h.1 x (List.mem_cons_of_mem _ hx), h.2.tail⟩
    by_cases hsp : pyIsSpace c = true
    · have hc : c = ' ' := h.1 c (List.mem_cons_self c cs) hsp
      subst hc
      have hcs : collapseWS false cs = cs := ih htail
      cases cs with
      | nil => simp [collapseWS]
      | cons d ds =>
        have hd : pyIsSpace d = false := h.2.rel_head hsp
        rw [collapseWS] at hcs ⊢
        simp only [hd, Bool.false_eq_true, if_false] at hcs
        simp only [show pyIsSpace ' ' = true from rfl, if_true]
        rw [collapseWS]
        simp only [hd, Bool.false_eq_true, if_false]
        exact congrArg (' ' :: ·) hcs
    · have hsp' : pyIsSpace c = false := by
        cases hb : pyIsSpace c
        · rfl
        · exact absurd hb hsp
      have hcs : collapseWS false cs = cs := ih htail
      rw [collapseWS]
      simp only [hsp', Bool.false_eq_true, if_false]
      exact congrArg (c :: ·) hcs

theorem collapseStrip_idem (u : List Char) :
    pyStrip (collapseWS false (pyStrip (collapseWS false u)))
      = pyStrip (collapseWS false u) := by
  have htidy : Tidy (pyStrip (collapseWS false u)) :=
    tidy_of_infix_le (collapseWS_tidy u).1 (pyStrip_infix_le _)
  rw [collapseWS_eq_self htidy, pyStrip_idem]

theorem stripHtmlData_idem {l : List Char} (h1 : '<' ∉ stripHtmlData l)
    (h2 : '&' ∉ stripHtmlData l) :
    stripHtmlData (stripHtmlData l) = stripHtmlData l := by
  obtain ⟨u, hu⟩ : ∃ u, stripHtmlData l = pyStrip (collapseWS false u) := ⟨_, rfl⟩
  rw [hu] at h1 h2 ⊢
  show stripHtmlData (pyStrip (collapseWS false u)) = pyStrip (collapseWS false u)
  simp only [stripHtmlData]
  rw [scriptSubGo_no_lt _ _ h1, tagSubGo_no_lt _ _ h1, unescapeGo_no_amp _ _ h2]
  exact collapseStrip_idem u

/-! ## Claim theorems -/

/-- C3 counterexample: the Text Normalizer is not idempotent.  On the input
`"&lt;b&gt;"` the first pass strips no tag but unescapes the entities to
`"<b>"`, and the second pass then strips that tag away, so
`strip_html (strip_html s) ≠ strip_html s`. -/
theorem C3_strip_html_not_idempotent :
    strip_html (strip_html "&lt;b&gt;") ≠ strip_html "&lt;b&gt;"
      ∧ strip_html "&lt;b&gt;" = "<b>"
      ∧ strip_html (strip_html "&lt;b&gt;") = "" := by
  refine ⟨by decide, by decide, by decide⟩

/-- C3 (amended): the Text Normalizer is idempotent on every input whose
normalized form contains no `<` and no `&` character: re-normalizing such
text returns it unchanged.  (In general idempotence fails, because entity
unescaping runs after tag stripping and can reintroduce markup; see the
counterexample.) -/
theorem C3_strip_html_idempotent_on_markup_free (s : String)
    (h1 : '<' ∉ (strip_html s).data) (h2 : '&' ∉ (strip_html s).data) :
    strip_html (strip_html s) = strip_html s :=
  congrArg String.mk (stripHtmlData_idem h1 h2)

/-- C3 witness: a concrete input satisfying the amended theorem's
hypotheses. -/
theorem C3_strip_html_idempotent_on_markup_free_witness :
    ('<' ∉ (strip_html "<p>Hello  world</p>").data)
      ∧ ('&' ∉ (strip_html "<p>Hello  world</p>").data)
      ∧ strip_html (strip_html "<p>Hello  world</p>")
          = strip_html "<p>Hello  world</p>"
      ∧ strip_html "<p>Hello  world</p>" = "Hello world" :=
  ⟨by decide, by decide,
    C3_strip_html_idempotent_on_markup_free _ (by decide) (by decide), by decide⟩

/-- C1: the Evidence Scorer's total is the sum of the contributed channel
weights, each of the four channels contributing its own weight at most once;
the vendor-match verdict holds exactly when the total reaches the threshold
(equality counts as a match); and when only the sender-domain channel hits,
the total equals `weights.from_domain`. -/
theorem C1_score_sum_and_threshold (R : JbhRules) (e : EmailRec) :
    jbh_score R e =
      (if fromDomainHit R (e.from_h.getD "") then R.w_from_domain else 0)
        + (if senderNameHit R (e.from_h.getD "") then R.w_sender_name else 0)
        + (if hostHit R (e.original_body_h.getD "") then R.w_host else 0)
        + (if phraseHit R (e.original_body_h.getD "") then R.w_phrase else 0)
      ∧ (score_jbhunt R e = true ↔ R.threshold ≤ jbh_score R e)
      ∧ (fromDomainHit R (e.from_h.getD "") = true →
          senderNameHit R (e.from_h.getD "") = false →
          hostHit R (e.original_body_h.getD "") = false →
          phraseHit R (e.original_body_h.getD "") = false →
          jbh_score R e = R.w_from_domain) := by
  refine ⟨?_, ?_, ?_⟩
  · have hsplit : ∀ (b : Bool) (x y : ℚ),
        (if b then x + y else x) = x + (if b then y else 0) := by
      intro b x y
      cases b <;> simp
    simp only [jbh_score, hsplit]
  · simp [score_jbhunt]
  · intro hd hn hh hp
    simp [jbh_score, hd, hn, hh, hp]

/-- A configuration pattern that never matches, standing for a reserved
identifier pattern with no category use. -/
def idPatNever : RePattern := ⟨fun _ => false, fun _ => []⟩

/-- Witness configuration for C1: only the sender-domain channel can hit. -/
def rulesC1 : JbhRules :=
  { from_domains := ["jbhunt.com"], sender_names_contains := [],
    body_phrases := [], url_host_contains := [], w_from_domain := 3,
    w_host := 1, w_phrase := 1, w_sender_name := 2, threshold := 3,
    subject_patterns := [("ID_PATTERN", idPatNever)],
    reply_true_if := [], reply_false_if := [], footer_indicators := [] }

/-- Witness email for C1: sender domain matches, nothing else does. -/
def emailC1 : EmailRec := ⟨some "driver@jbhunt.com", some "hello", none⟩

/-- C1 witness: on a record whose sender domain matches and where nothing
else matches, the score is exactly `weights.from_domain` and the threshold
boundary (score equal to threshold) counts as a match. -/
theorem C1_score_sum_and_threshold_witness :
    fromDomainHit rulesC1 (emailC1.from_h.getD "") = true
      ∧ jbh_score rulesC1 emailC1 = rulesC1.w_from_domain
      ∧ score_jbhunt rulesC1 emailC1 = true :=
  ⟨by decide,
    (C1_score_sum_and_threshold rulesC1 emailC1).2.2
      (by decide) (by decide) (by decide) (by decide),
    by decide⟩

/-- The comparison the C4 claim describes, following the spec's words: a
case-insensitive suffix test between the extracted domain and a configured
suffix. -/
def specCiEndsWith (d suf : String) : Bool :=
  pyEndsWith (pyLower suf).data (pyLower d).data

/-- C4 configuration: a domain suffix configured with uppercase letters. -/
def rulesC4 : JbhRules := { rulesC1 with from_domains := ["EXAMPLE.COM"] }

/-- C4 counterexample: the suffix comparison is not case-insensitive in the
configured suffix.  With suffix `"EXAMPLE.COM"` and sender `a@EXAMPLE.com`,
the extracted (lowercased) domain `example.com` case-insensitively ends with
the configured suffix, yet domain evidence is not granted, because the code
lowercases only the extracted domain and compares the suffix verbatim. -/
theorem C4_not_case_insensitive_in_suffix :
    extractFromDomain "a@EXAMPLE.com" = some "example.com"
      ∧ specCiEndsWith "example.com" "EXAMPLE.COM" = true
      ∧ fromDomainHit rulesC4 "a@EXAMPLE.com" = false
      ∧ score_jbhunt rulesC4 ⟨some "a@EXAMPLE.com", none, none⟩ = false :=
  ⟨by decide, by decide, by decide, by decide⟩

/-- C4 (amended): when no domain can be extracted from the `From` header,
domain evidence is absent; when a domain is extracted, the `from_domain`
weight is granted exactly when the lowercased extracted domain ends with
some configured suffix taken verbatim — so the letter case of the header's
domain cannot matter, but a configured suffix containing uppercase letters
never matches. -/
theorem C4_from_domain_evidence (R : JbhRules) (ff : String) :
    (extractFromDomain ff = none → fromDomainHit R ff = false)
      ∧ ∀ d, extractFromDomain ff = some d →
          (fromDomainHit R ff = true ↔
            ∃ suf ∈ R.from_domains, pyEndsWith suf.data d.data = true) := by
  constructor
  · intro h
    simp [fromDomainHit, h]
  · intro d h
    simp [fromDomainHit, h, List.any_eq_true]

/-- C4 witness: a lowercase configured suffix does match. -/
theorem C4_from_domain_evidence_witness :
    extractFromDomain "driver@JBHunt.com" = some "jbhunt.com"
      ∧ fromDomainHit rulesC1 "driver@JBHunt.com" = true :=
  ⟨by decide,
    ((C4_from_domain_evidence rulesC1 "driver@JBHunt.com").2 "jbhunt.com"
        (by decide)).mpr ⟨"jbhunt.com", by decide, by decide⟩⟩

theorem subjCatGo_no_match (s : String) (l : List (String × RePattern))
    (h : ∀ k p, (k, p) ∈ l → k ≠ "ID_PATTERN" → p.search s = false) :
    subjCatGo s l = "OTHER" := by
  induction l with
  | nil => rfl
  | cons kp rest ih =>
    obtain ⟨k, p⟩ := kp
    have htail := fun k' p' hm hne => h k' p' (List.mem_cons_of_mem _ hm) hne
    by_cases hk : k = "ID_PATTERN"
    · simp only [subjCatGo, if_pos hk]
      exact ih htail
    · have hs : p.search s = false := h k p (List.mem_cons_self _ _) hk
      simp only [subjCatGo, if_neg hk, hs, Bool.false_eq_true, if_false]
      exact ih htail

theorem subjCatGo_first_match (s : String) (l₁ l₂ : List (String × RePattern))
    (k : String) (p : RePattern) (hk : k ≠ "ID_PATTERN")
    (hp : p.search s = true)
    (h1 : ∀ k' p', (k', p') ∈ l₁ → k' ≠ "ID_PATTERN" → p'.search s = false) :
    subjCatGo s (l₁ ++ (k, p) :: l₂) = k := by
  induction l₁ with
  | nil => simp [subjCatGo, hk, hp]
  | cons kp rest ih =>
    obtain ⟨k', p'⟩ := kp
    have htail := fun a b hm hne => h1 a b (List.mem_cons_of_mem _ hm) hne
    by_cases hk' : k' = "ID_PATTERN"
    · simp only [List.cons_append, subjCatGo, if_pos hk']
      exact ih htail
    · have hs : p'.search s = false := h1 k' p' (List.mem_cons_self _ _) hk'
      simp only [List.cons_append, subjCatGo, if_neg hk', hs,
        Bool.false_eq_true, if_false]
      exact ih htail

/-- C2: the Subject Classifier lowercases the (possibly absent) subject,
walks the configured patterns in declared order skipping the reserved
`ID_PATTERN` entry, and returns the first matching category — so of two
matching patterns the one declared earlier wins — and returns the sentinel
`OTHER` when no (non-reserved) pattern matches, in particular on an empty
subject unless some pattern matches the empty string. -/
theorem C2_subject_classifier (R : JbhRules) (subject : Option String) :
    (∀ l₁ k p l₂, R.subject_patterns = l₁ ++ (k, p) :: l₂ →
        k ≠ "ID_PATTERN" →
        p.search (pyLower (subject.getD "")) = true →
        (∀ k' p', (k', p') ∈ l₁ → k' ≠ "ID_PATTERN" →
          p'.search (pyLower (subject.getD "")) = false) →
        subject_category R subject = k)
      ∧ ((∀ k' p', (k', p') ∈ R.subject_patterns → k' ≠ "ID_PATTERN" →
            p'.search (pyLower (subject.getD "")) = false) →
          subject_category R subject = "OTHER") := by
  constructor
  · intro l₁ k p l₂ hsplit hk hp h1
    rw [subject_category, hsplit]
    exact subjCatGo_first_match _ _ _ _ _ hk hp h1
  · intro h
    rw [subject_category]
    exact subjCatGo_no_match _ _ h

/-- A configuration pattern matching subjects that contain `urgent`. -/
def patUrgent : RePattern := ⟨fun s => pySubstr "urgent".data s.data, fun _ => []⟩

/-- A configuration pattern matching subjects that contain `load`. -/
def patLoad : RePattern := ⟨fun s => pySubstr "load".data s.data, fun _ => []⟩

/-- C2 witness configuration: two category patterns after the reserved
identifier entry. -/
def rulesC2 : JbhRules :=
  { rulesC1 with subject_patterns :=
      [("ID_PATTERN", idPatNever), ("URGENT", patUrgent), ("LOADINFO", patLoad)] }

/-- C2 witness: both category patterns match the lowercased subject and the
earlier-declared one wins; an absent subject yields `OTHER`. -/
theorem C2_subject_classifier_witness :
    patUrgent.search (pyLower "URGENT load 5") = true
      ∧ patLoad.search (pyLower "URGENT load 5") = true
      ∧ subject_category rulesC2 (some "URGENT load 5") = "URGENT"
      ∧ subject_category rulesC2 none = "OTHER" := by
  refine ⟨by decide, by decide, ?_, ?_⟩
  · refine (C2_subject_classifier rulesC2 (some "URGENT load 5")).1
      [("ID_PATTERN", idPatNever)] "URGENT" patUrgent [("LOADINFO", patLoad)]
      rfl (by decide) (by decide) ?_
    intro k' p' hm hne
    rw [List.mem_singleton] at hm
    cases hm
    exact absurd rfl hne
  · refine (C2_subject_classifier rulesC2 none).2 ?_
    intro k' p' hm hne
    rcases List.mem_cons.mp hm with h | hm
    · cases h; exact absurd rfl hne
    rcases List.mem_cons.mp hm with h | hm
    · cases h; decide
    rw [List.mem_singleton] at hm
    cases hm; decide

theorem pyRfind_none_iff (sub l : List Char) :
    pyRfind sub l = none ↔ pySubstr sub l = false := by
  unfold pyRfind pySubstr
  rw [List.getLast?_eq_none_iff, List.filter_eq_nil_iff, List.any_eq_false]

theorem stamp_position_none_iff (R : JbhRules) (tb : String) :
    stamp_position R tb = none ↔
      ∀ ind ∈ R.footer_indicators,
        pySubstr (pyLower ind).data (pyLower tb).data = false := by
  have hnone : stamp_position R tb = none ↔ (stampIdxs R tb).max? = none := by
    unfold stamp_position
    cases hmax : (stampIdxs R tb).max? with
    | none => simp
    | some pos =>
      dsimp only
      split_ifs <;> simp
  rw [hnone, List.max?_eq_none_iff]
  unfold stampIdxs
  rw [List.filterMap_eq_nil_iff]
  constructor
  · intro h ind hm
    have hi := h ind hm
    by_cases hsub : pySubstr (pyLower ind).data (pyLower tb).data = true
    · rw [if_pos hsub] at hi
      have := (pyRfind_none_iff _ _).mp hi
      rw [hsub] at this
      cases this
    · simpa using hsub
  · intro h ind hm
    rw [if_neg (by simp [h ind hm])]

/-- C5: the Stamp Locator returns `none` exactly when no configured footer
indicator occurs (case-insensitively) in the body; otherwise, with `pos` the
maximum of the recorded last-occurrence indices and
`frac = pos / max(length, 1)` as an exact rational, the bucket is `header`
for `frac < 1/5`, `body` for `1/5 ≤ frac < 7/10`, and `footer` otherwise. -/
theorem C5_stamp_locator (R : JbhRules) (tb : String) :
    (stamp_position R tb = none ↔
        ∀ ind ∈ R.footer_indicators,
          pySubstr (pyLower ind).data (pyLower tb).data = false)
      ∧ (∀ pos, (stampIdxs R tb).max? = some pos →
          stamp_position R tb =
            some (if ((pos : ℚ) / ((max (pyLower tb).data.length 1 : ℕ) : ℚ)
                < 1 / 5) then "header"
              else if ((pos : ℚ) / ((max (pyLower tb).data.length 1 : ℕ) : ℚ)
                < 7 / 10) then "body"
              else "footer")) := by
  refine ⟨stamp_position_none_iff R tb, ?_⟩
  intro pos hmax
  have hn : 0 < max (pyLower tb).data.length 1 := lt_of_lt_of_le one_pos (le_max_right _ _)
  have hnq : (0 : ℚ) < ((max (pyLower tb).data.length 1 : ℕ) : ℚ) := by
    exact_mod_cast hn
  have h1 : ((pos : ℚ) / ((max (pyLower tb).data.length 1 : ℕ) : ℚ) < 1 / 5)
      ↔ 5 * pos < max (pyLower tb).data.length 1 := by
    rw [div_lt_div_iff₀ hnq (by norm_num : (0 : ℚ) < 5)]
    norm_cast
    omega
  have h2 : ((pos : ℚ) / ((max (pyLower tb).data.length 1 : ℕ) : ℚ) < 7 / 10)
      ↔ 10 * pos < 7 * max (pyLower tb).data.length 1 := by
    rw [div_lt_div_iff₀ hnq (by norm_num : (0 : ℚ) < 10)]
    norm_cast
    omega
  unfold stamp_position
  rw [hmax]
  dsimp only
  simp only [h1, h2]
  split_ifs <;> rfl

/-- C5 witness configuration: a single one-character footer indicator. -/
def rulesC5 : JbhRules := { rulesC1 with footer_indicators := ["x"] }

/-- A body of `i + 1 + j` characters whose only indicator occurrence is at
index `i`. -/
def stampText (i j : Nat) : String :=
  ⟨List.replicate i 'a' ++ 'x' :: List.replicate j 'a'⟩

/-- C5 witness: the claim's worked examples — last occurrence at index 95 of
100 gives `footer`, index 15 gives `header`, index 50 gives `body`, and a
body without any indicator gives `none`. -/
theorem C5_stamp_locator_witness :
    (stampIdxs rulesC5 (stampText 95 4)).max? = some 95
      ∧ stamp_position rulesC5 (stampText 95 4) = some "footer"
      ∧ stamp_position rulesC5 (stampText 15 84) = some "header"
      ∧ stamp_position rulesC5 (stampText 50 49) = some "body"
      ∧ stamp_position rulesC5 "bbbb" = none := by
  refine ⟨by decide, ?_, by decide, by decide,
    (C5_stamp_locator rulesC5 "bbbb").1.mpr (by decide)⟩
  have hlen : (pyLower (stampText 95 4)).data.length = 100 := by decide
  have h := (C5_stamp_locator rulesC5 (stampText 95 4)).2 95 (by decide)
  rw [hlen] at h
  norm_num at h
  exact h

/-- Scanner state for Python `re.findall` of the pattern `#(\d+)`. -/
inductive HashScanSt where
  | idle : HashScanSt
  | sawHash : HashScanSt
  | dig (acc : List Char) : HashScanSt

/-- `re.findall(r'#(\d+)', s)`: scan left to right; at a `#`, a maximal
nonempty digit run is one captured group, and scanning resumes after it
(non-overlapping matches, no deduplication). -/
def hashFindallGo : HashScanSt → List Char → List String
  | .idle, [] => []
  | .sawHash, [] => []
  | .dig acc, [] => [⟨acc.reverse⟩]
  | .idle, c :: rest =>
    if c = '#' then hashFindallGo .sawHash rest else hashFindallGo .idle rest
  | .sawHash, c :: rest =>
    if c.isDigit then hashFindallGo (.dig [c]) rest
    else if c = '#' then hashFindallGo .sawHash rest
    else hashFindallGo .idle rest
  | .dig acc, c :: rest =>
    if c.isDigit then hashFindallGo (.dig (c :: acc)) rest
    else
      (⟨acc.reverse⟩ : String) ::
        (if c = '#' then hashFindallGo .sawHash rest
          else hashFindallGo .idle rest)

/-- The observable behaviour of the compiled pattern `#(\d+)`, the reserved
identifier pattern of the claim's example. -/
def hashIdPattern : RePattern :=
  ⟨fun s => !(hashFindallGo .idle s.data).isEmpty,
    fun s => hashFindallGo .idle s.data⟩

/-- C6 configuration: `#(\d+)` as the reserved identifier pattern. -/
def rulesC6 : JbhRules :=
  { rulesC1 with subject_patterns := [("ID_PATTERN", hashIdPattern)] }

/-- C6: the Identifier Extractor applies the reserved identifier pattern's
`findall` to the raw (not lowercased, absent treated as empty) subject,
returning every non-overlapping match in left-to-right order with no
deduplication; for subject `"Load #123 and #456"` and pattern `#(\d+)` the
result is `["123", "456"]`, and repeated identifiers are kept. -/
theorem C6_extract_load_ids :
    (∀ (R : JbhRules) (subject : Option String) (p : RePattern),
        R.subject_patterns.lookup "ID_PATTERN" = some p →
        extract_load_ids R subject = some (p.findall (subject.getD "")))
      ∧ hashIdPattern.findall "Load #123 and #456" = ["123", "456"]
      ∧ hashIdPattern.findall "#7 and #7" = ["7", "7"] := by
  refine ⟨?_, by decide, by decide⟩
  intro R subject p hp
  rw [extract_load_ids, hp]

/-- C6 witness: the general statement applied to the example configuration
and subject. -/
theorem C6_extract_load_ids_witness :
    extract_load_ids rulesC6 (some "Load #123 and #456") = some ["123", "456"]
      ∧ extract_load_ids rulesC6 none = some [] := by
  constructor
  · rw [C6_extract_load_ids.1 rulesC6 (some "Load #123 and #456") hashIdPattern rfl]
    decide
  · rw [C6_extract_load_ids.1 rulesC6 none hashIdPattern rfl]
    decide

/-- C7: the Reply-Necessity verdict checks `reply_true_categories` first —
membership there forces verdict `true` with no condition on
`reply_false_categories`, so the `true` branch wins even when the category is
erroneously in both sets; only a category not in the first set and in the
second yields `false`; and a category in neither yields the unknown verdict
with the generic no-strong-subject-signal reason. -/
theorem C7_reply_necessity (R : JbhRules) (e : EmailRec) (r : ClassifyResult)
    (h : classify R e = some r) :
    (subject_category R (some (e.subject_h.getD "")) ∈ R.reply_true_if →
        r.needs_response_pred = some true)
      ∧ (subject_category R (some (e.subject_h.getD "")) ∉ R.reply_true_if →
          subject_category R (some (e.subject_h.getD "")) ∈ R.reply_false_if →
          r.needs_response_pred = some false)
      ∧ (subject_category R (some (e.subject_h.getD "")) ∉ R.reply_true_if →
          subject_category R (some (e.subject_h.getD "")) ∉ R.reply_false_if →
          r.needs_response_pred = none
            ∧ r.reason = "No strong subject signal.") := by
  simp only [classify] at h
  cases hl : extract_load_ids R (some (e.subject_h.getD "")) with
  | none =>
    rw [hl] at h
    exact absurd h (by simp)
  | some ids =>
    rw [hl] at h
    dsimp only at h
    refine ⟨?_, ?_, ?_⟩
    · intro h1
      rw [if_pos h1] at h
      cases Option.some.inj h
      rfl
    · intro h1 h2
      rw [if_neg h1, if_pos h2] at h
      cases Option.some.inj h
      rfl
    · intro h1 h2
      rw [if_neg h1, if_neg h2] at h
      cases Option.some.inj h
      exact ⟨rfl, rfl⟩

/-- C7 witness configuration: the category `OTHER` is (erroneously) in both
reply sets; the `true` branch wins. -/
def rulesC7 : JbhRules :=
  { rulesC1 with reply_true_if := ["OTHER"], reply_false_if := ["OTHER"] }

/-- C7 witness: on a record classified `OTHER`, with `OTHER` in both sets,
the verdict is `true`. -/
theorem C7_reply_necessity_witness :
    subject_category rulesC7 (some (emailC1.subject_h.getD ""))
        ∈ rulesC7.reply_true_if
      ∧ subject_category rulesC7 (some (emailC1.subject_h.getD ""))
          ∈ rulesC7.reply_false_if
      ∧ (classify rulesC7 emailC1).map (fun r => r.needs_response_pred)
          = some (some true) := by
  refine ⟨by decide, by decide, ?_⟩
  cases hc : classify rulesC7 emailC1 with
  | none => exact absurd hc (by decide)
  | some r =>
    have hneeds := (C7_reply_necessity rulesC7 emailC1 r hc).1 (by decide)
    simp [hneeds]

/-- C8 (amended): for every MIME part tree and any behaviour of the html
cleaner, `clean_reply` is never the empty string; when cleaning yields empty
text, the fallback is the whitespace-stripped raw plain content if that is
nonempty, and the fixed placeholder string otherwise (in particular a
whitespace-only raw plain content still yields the placeholder, not the raw
content itself). -/
theorem C8_clean_reply_never_empty (cleanHtml : String → String)
    (payload : MPart) :
    ((extract_latest_reply cleanHtml payload).2 ≠ "")
      ∧ (latestCleaned cleanHtml (latestBodyParts payload) = "" →
          pyStripStr (latestBodyParts payload).1 ≠ "" →
          (extract_latest_reply cleanHtml payload).2
            = pyStripStr (latestBodyParts payload).1)
      ∧ (latestCleaned cleanHtml (latestBodyParts payload) = "" →
          pyStripStr (latestBodyParts payload).1 = "" →
          (extract_latest_reply cleanHtml payload).2
            = "(No readable content found)") := by
  simp only [extract_latest_reply]
  set bp := latestBodyParts payload with hbp
  set cleaned := latestCleaned cleanHtml bp with hcleaned
  refine ⟨?_, ?_, ?_⟩
  · set c2 := if cleaned = "" && bp.1 ≠ "" then pyStripStr bp.1 else cleaned
      with hc2
    by_cases h : c2 = ""
    · rw [if_pos h]
      decide
    · rw [if_neg h]
      exact h
  · intro hc hs
    have hp1 : bp.1 ≠ "" := by
      intro he
      rw [he] at hs
      exact hs (by decide)
    simp [hc, hp1, hs]
  · intro hc hs
    by_cases hp1 : bp.1 = ""
    · simp [hc, hp1]
    · simp [hc, hp1, hs]

/-- C8 counterexample payload: a single `text/plain` part whose content
decodes to the one-space string. -/
def payloadC8 : MPart := MPart.mk "text/plain" (some "IA") none

/-- C8 counterexample: cleaning yields empty text and raw plain content
exists (the one-space string), yet `clean_reply` is the placeholder, not
that raw plain content — the code falls back to the *stripped* plain
content, which is empty here. -/
theorem C8_counterexample :
    (latestBodyParts payloadC8).1 = " "
      ∧ latestCleaned (fun s => s) (latestBodyParts payloadC8) = ""
      ∧ (extract_latest_reply (fun s => s) payloadC8).2
          = "(No readable content found)"
      ∧ (extract_latest_reply (fun s => s) payloadC8).2 ≠ " " :=
  ⟨by decide, by decide, by decide, by decide⟩

/-- C8 witness payload: a single `text/plain` part whose content decodes to
`" \n___\nhi"` — cleaning (split at the underscore boundary, then strip)
yields empty text, while the stripped raw plain content is nonempty. -/
def payloadC8b : MPart := MPart.mk "text/plain" (some "IApfX18KaGk") none

/-- C8 witness: the amended theorem applied at a concrete payload on which
cleaning yields empty text but the stripped plain content is nonempty. -/
theorem C8_clean_reply_never_empty_witness :
    latestCleaned (fun s => s) (latestBodyParts payloadC8b) = ""
      ∧ pyStripStr (latestBodyParts payloadC8b).1 ≠ ""
      ∧ (extract_latest_reply (fun s => s) payloadC8b).2
          = pyStripStr (latestBodyParts payloadC8b).1
      ∧ (extract_latest_reply (fun s => s) payloadC8b).2 ≠ "" :=
  ⟨by decide, by decide,
    (C8_clean_reply_never_empty (fun s => s) payloadC8b).2.1
      (by decide) (by decide),
    (C8_clean_reply_never_empty (fun s => s) payloadC8b).1⟩

/-- C9: the content decoder is total and follows the fallback chain: empty
input gives the empty string; otherwise it pads the input to a multiple of
four characters and tries base64url; on failure it tries standard base64 on
the raw input; and when both fail it returns the raw input string itself, so
undecodable content is recovered locally and never a failure of the call. -/
theorem C9_decode_fallback_chain (data : String) :
    (data = "" → decode_base64url data = "")
      ∧ (padB64 data.data).length % 4 = 0
      ∧ (∀ bs, data ≠ "" → b64decodeUrlsafe (padB64 data.data) = some bs →
          decode_base64url data = ⟨utf8ReplaceGo bs.length bs⟩)
      ∧ (∀ bs, data ≠ "" → b64decodeUrlsafe (padB64 data.data) = none →
          b64decodeStd data.data = some bs →
          decode_base64url data = ⟨utf8ReplaceGo bs.length bs⟩)
      ∧ (data ≠ "" → b64decodeUrlsafe (padB64 data.data) = none →
          b64decodeStd data.data = none → decode_base64url data = data) := by
  refine ⟨?_, ?_, ?_, ?_, ?_⟩
  · intro h
    simp only [decode_base64url, if_pos h]
  · simp only [padB64, List.length_append, List.length_replicate]
    omega
  · intro bs hne h
    simp only [decode_base64url, if_neg hne, h]
  · intro bs hne h1 h2
    simp only [decode_base64url, if_neg hne, h1, h2]
  · intro hne h1 h2
    simp only [decode_base64url, if_neg hne, h1, h2]

/-- C9 witness: the three chain outcomes on concrete inputs — `"IA"` decodes
as base64url to a space; `"-"` fails base64url (one data character after
translation) but standard base64 ignores it and decodes to the empty byte
string; `"A"` fails both and is returned raw. -/
theorem C9_decode_fallback_chain_witness :
    decode_base64url "" = ""
      ∧ b64decodeUrlsafe (padB64 "IA".data) = some [32]
      ∧ decode_base64url "IA" = " "
      ∧ b64decodeUrlsafe (padB64 "-".data) = none
      ∧ b64decodeStd "-".data = some []
      ∧ decode_base64url "-" = ""
      ∧ b64decodeUrlsafe (padB64 "A".data) = none
      ∧ b64decodeStd "A".data = none
      ∧ decode_base64url "A" = "A" :=
  ⟨(C9_decode_fallback_chain "").1 rfl,
    by decide,
    (C9_decode_fallback_chain "IA").2.2.1 [32] (by decide) (by decide),
    by decide, by decide,
    (C9_decode_fallback_chain "-").2.2.2.1 [] (by decide) (by decide) (by decide),
    by decide, by decide,
    (C9_decode_fallback_chain "A").2.2.2.2 (by decide) (by decide) (by decide)⟩

theorem fepMerge_keeps_plain (body nested : String × String)
    (h : body.1 ≠ "") : (fepMerge body nested).1 = body.1 := by
  simp [fepMerge, h]

theorem fepText_keeps_plain (mime : String) (bdata : Option String)
    (b : String × String) (h : b.1 ≠ "") : (fepText mime bdata b).1 = b.1 := by
  cases bdata with
  | none =>
    simp only [fepText]
    split_ifs <;> rfl
  | some d =>
    simp only [fepText]
    split_ifs with h1 h2 h3 <;> try rfl
    simp only [Bool.and_eq_true, decide_eq_true_eq] at h1
    exact absurd h1.2 h

theorem fepRfc_keeps_plain (mime : String) (bdata : Option String)
    (b : String × String) (h : b.1 ≠ "") : (fepRfc mime bdata b).1 = b.1 := by
  cases bdata with
  | none =>
    simp only [fepRfc]
    split_ifs <;> rfl
  | some d =>
    simp only [fepRfc]
    split_ifs <;> rfl

theorem fepOne_keeps_plain (body : String × String) (p : MPart)
    (h : body.1 ≠ "") : (fepOne body p).1 = body.1 := by
  obtain ⟨mime, bdata, kids⟩ := p
  cases kids with
  | none =>
    have ht : (fepText mime bdata body).1 = body.1 :=
      fepText_keeps_plain mime bdata body h
    have hr : (fepRfc mime bdata (fepText mime bdata body)).1
        = (fepText mime bdata body).1 :=
      fepRfc_keeps_plain _ _ _ (by rw [ht]; exact h)
    simp only [fepOne]
    rw [hr, ht]
  | some ps =>
    have hm : (fepMerge body (fepList ("", "") ps)).1 = body.1 :=
      fepMerge_keeps_plain _ _ h
    have hb1 : (fepMerge body (fepList ("", "") ps)).1 ≠ "" := by
      rw [hm]; exact h
    have ht : (fepText mime bdata (fepMerge body (fepList ("", "") ps))).1
        = (fepMerge body (fepList ("", "") ps)).1 :=
      fepText_keeps_plain _ _ _ hb1
    have hr := fepRfc_keeps_plain mime bdata
      (fepText mime bdata (fepMerge body (fepList ("", "") ps)))
      (by rw [ht]; exact hb1)
    simp only [fepOne]
    rw [hr, ht, hm]

theorem fepList_keeps_plain :
    ∀ (body : String × String) (l : MParts), body.1 ≠ "" →
      (fepList body l).1 = body.1
  | _, .nil, _ => rfl
  | body, .cons p rest, h => by
    have h1 : (fepOne body p).1 = body.1 := fepOne_keeps_plain body p h
    simp only [fepList]
    rw [fepList_keeps_plain (fepOne body p) rest (by rw [h1]; exact h), h1]

/-- C10: in the recursive part walk, a `message/rfc822` part's decoded
payload fills the plain-text field only when no plain text has been captured
yet: a state with nonempty captured plain text passes through every loop
step (and every remaining walk) unchanged in that field — it is never
overwritten — while with empty captured plain text a `message/rfc822` part
with nonempty data sets the plain-text field to its base64url-decoded
payload. -/
theorem C10_rfc822_fill_only_when_empty :
    (∀ (body : String × String) (p : MPart), body.1 ≠ "" →
        (fepOne body p).1 = body.1)
      ∧ (∀ (body : String × String) (l : MParts), body.1 ≠ "" →
          (fepList body l).1 = body.1)
      ∧ (∀ (html d : String) (rest : MParts), d ≠ "" →
          fepList ("", html)
              (.cons (MPart.mk "message/rfc822" (some d) none) rest)
            = fepList (decode_base64url d, html) rest) := by
  refine ⟨fepOne_keeps_plain, fepList_keeps_plain, ?_⟩
  intro html d rest hd
  simp only [fepList, fepOne, fepText, fepMerge, fepRfc]
  simp [hd]

/-- C10 witness: the never-overwrite statements applied at a nonempty state,
plus concrete trees — an embedded `message/rfc822` payload (decoding to
`"x"`) fills the plain text when nothing was captured, but a plain-text part
(decoding to `"hi"`) seen earlier is not overwritten by it. -/
theorem C10_rfc822_fill_only_when_empty_witness :
    (fepOne ("hi", "") (MPart.mk "message/rfc822" (some "eA") none)).1 = "hi"
      ∧ (fepList ("hi", "")
          (.cons (MPart.mk "message/rfc822" (some "eA") none) .nil)).1 = "hi"
      ∧ fepList ("", "")
            (.cons (MPart.mk "message/rfc822" (some "eA") none) .nil)
          = fepList (decode_base64url "eA", "") .nil
      ∧ find_email_parts
          (.cons (MPart.mk "text/plain" (some "aGk") none)
            (.cons (MPart.mk "message/rfc822" (some "eA") none) .nil))
          = ("hi", "")
      ∧ find_email_parts
          (.cons (MPart.mk "message/rfc822" (some "eA") none) .nil)
          = ("x", "") :=
  ⟨C10_rfc822_fill_only_when_empty.1 ("hi", "")
      (MPart.mk "message/rfc822" (some "eA") none) (by decide),
    C10_rfc822_fill_only_when_empty.2.1 ("hi", "")
      (.cons (MPart.mk "message/rfc822" (some "eA") none) .nil) (by decide),
    C10_rfc822_fill_only_when_empty.2.2 "" "eA" .nil (by decide),
    by decide, by decide⟩
